import Mathlib

/-!
Verification of the Avogadro force-field optimization core and two rendering
auxiliaries against their specification.

The implementation of ForceFieldThread / ForceFieldCommand (declared in
src/avogadro/src/extensions/forcefieldextension.h) is not part of the audited
sources, so the components it declares — GeometrySnapshot capture/restore, the
optimization loop with its progress reports, and the command state machine
with merge/detach — are modelled from the specification, as marked on each
definition.  The bond-picking round trip (bsdyengine.cpp / selectrotatetool.cpp)
and Molecule::centerAndFitInXYPlane (primitives.cpp) are embedded from the
source files directly.
-/

namespace Avogadro

/-- A 3D position.  Integer triples stand in for the double vectors of the
source: the claims proved here concern control flow, data flow and identity of
coordinates, never the floating-point arithmetic itself. -/
abbrev Pos : Type := Int × Int × Int

/-- An atom: an identity plus its current coordinates.  This is the minimal
molecule-mutation surface of the spec (section 6): getAtomPosition,
setAtomPosition, iteration over atom identities. -/
structure Atom where
  id : Nat
  pos : Pos
deriving DecidableEq, Repr

/-- A molecule, reduced to the coordinate data the optimizer touches. -/
abbrev Molecule : Type := List Atom

/-- Modelled from the spec: GeometrySnapshot (section 2 and 4.3), a value
sequence of (atom identity, 3D position) pairs.  The ForceFieldCommand
implementation holding m_moleculeCopy is absent from the audited sources. -/
abbrev Snapshot : Type := List (Nat × Pos)

/-- Modelled from the spec: capture(molecule) performs a full value copy of
every atom's position (section 4.3). -/
def capture (m : Molecule) : Snapshot :=
  m.map (fun a => (a.id, a.pos))

/-- Look up the stored position for an atom identity in a snapshot. -/
def findPos : Snapshot → Nat → Option Pos
  | [], _ => none
  | (i, p) :: rest, k => if i = k then some p else findPos rest k

/-- setAtomPosition(id, pos): overwrite the coordinates of the atom with the
given identity; a no-op when no such atom exists (section 6). -/
def setAtomPos (m : Molecule) (i : Nat) (p : Pos) : Molecule :=
  m.map (fun a => if a.id = i then { a with pos := p } else a)

/-- Modelled from the spec: restore(snapshot, molecule) overwrites the
molecule's coordinates atom-for-atom; a snapshot entry whose atom is no longer
present is skipped, not fatal (sections 4.3 and 7). -/
def restore : Snapshot → Molecule → Molecule
  | [], m => m
  | e :: rest, m => restore rest (setAtomPos m e.1 e.2)

/-- The per-atom effect of a restore: the snapshot position when the identity
is recorded, the current position otherwise. -/
def restoredAtom (s : Snapshot) (a : Atom) : Atom :=
  match findPos s a.id with
  | some p => ⟨a.id, p⟩
  | none => a

theorem findPos_eq_none {s : Snapshot} {i : Nat}
    (h : i ∉ s.map Prod.fst) : findPos s i = none := by
  induction s with
  | nil => rfl
  | cons e rest ih =>
    simp only [List.map_cons, List.mem_cons] at h
    push_neg at h
    simp only [findPos]
    rw [if_neg (fun he => h.1 he.symm), ih h.2]

theorem setAtomPos_eq_self {m : Molecule} {x : Atom} (hx : x ∈ m)
    (hnd : (m.map Atom.id).Nodup) : setAtomPos m x.id x.pos = m := by
  unfold setAtomPos
  conv_rhs => rw [← List.map_id m]
  apply List.map_congr_left
  intro a ha
  by_cases h : a.id = x.id
  · have hax : a = x := List.inj_on_of_nodup_map hnd ha hx h
    subst hax
    simp
  · simp [h]

theorem restore_mem_id {m : Molecule} (hnd : (m.map Atom.id).Nodup) :
    ∀ s : Snapshot, (∀ e ∈ s, ∃ x ∈ m, e = (x.id, x.pos)) → restore s m = m := by
  intro s
  induction s with
  | nil => intro _; rfl
  | cons e rest ih =>
    intro h
    obtain ⟨x, hx, hex⟩ := h e (List.mem_cons_self e rest)
    have hset : setAtomPos m e.1 e.2 = m := by
      subst hex
      exact setAtomPos_eq_self hx hnd
    simp only [restore, hset]
    exact ih (fun e' he' => h e' (List.mem_cons_of_mem e he'))

theorem restore_eq_map (s : Snapshot) (m : Molecule)
    (hs : (s.map Prod.fst).Nodup) :
    restore s m = m.map (restoredAtom s) := by
  induction s generalizing m with
  | nil =>
    simp only [restore]
    symm
    have h0 : List.map (restoredAtom []) m = List.map id m :=
      List.map_congr_left (fun a _ => rfl)
    rw [h0, List.map_id]
  | cons e rest ih =>
    obtain ⟨i, p⟩ := e
    simp only [List.map_cons, List.nodup_cons] at hs
    simp only [restore]
    rw [ih (setAtomPos m i p) hs.2]
    unfold setAtomPos
    rw [List.map_map]
    apply List.map_congr_left
    intro a _
    by_cases h : a.id = i
    · simp only [Function.comp_apply, if_pos h, restoredAtom]
      have : findPos rest i = none := findPos_eq_none hs.1
      simp only [findPos, h, if_pos rfl]
      simp [h, this]
    · simp only [Function.comp_apply, if_neg h, restoredAtom, findPos]
      rw [if_neg (fun hi => h hi.symm)]

theorem restoredAtom_id (s : Snapshot) (a : Atom) : (restoredAtom s a).id = a.id := by
  unfold restoredAtom
  cases findPos s a.id <;> rfl

/-- C4: restoring the snapshot captured from a molecule back onto that
molecule, with no intervening mutation, leaves every atom's coordinates
unchanged — restore after capture is the identity, provided atom identities
are unique as they are in a molecule. -/
theorem c4_restore_capture_id (m : Molecule) (hnd : (m.map Atom.id).Nodup) :
    restore (capture m) m = m := by
  apply restore_mem_id hnd
  intro e he
  simp only [capture, List.mem_map] at he
  obtain ⟨x, hx, hex⟩ := he
  exact ⟨x, hx, hex.symm⟩

theorem c4_restore_capture_id_witness :
    restore (capture [⟨1, (3, 4, 5)⟩, ⟨2, (0, 0, 1)⟩]) [⟨1, (3, 4, 5)⟩, ⟨2, (0, 0, 1)⟩]
      = [⟨1, (3, 4, 5)⟩, ⟨2, (0, 0, 1)⟩] :=
  c4_restore_capture_id [⟨1, (3, 4, 5)⟩, ⟨2, (0, 0, 1)⟩] (by decide)

/-- C5: restore overwrites the molecule's coordinates atom-for-atom — every
atom whose identity the snapshot records receives the recorded position,
atoms added after the capture keep their position, entries for atoms removed
after the capture are skipped without failure, and the molecule's atom
identity sequence is preserved (the operation is total). -/
theorem c5_restore_subset (s : Snapshot) (m : Molecule)
    (hs : (s.map Prod.fst).Nodup) :
    restore s m = m.map (restoredAtom s)
      ∧ (∀ a ∈ m, ∀ p, findPos s a.id = some p →
          restoredAtom s a = ⟨a.id, p⟩)
      ∧ (∀ a ∈ m, findPos s a.id = none → restoredAtom s a = a)
      ∧ (restore s m).map Atom.id = m.map Atom.id := by
  refine ⟨restore_eq_map s m hs, ?_, ?_, ?_⟩
  · intro a _ p hp
    unfold restoredAtom
    rw [hp]
  · intro a _ hp
    unfold restoredAtom
    rw [hp]
  · rw [restore_eq_map s m hs, List.map_map]
    apply List.map_congr_left
    intro a _
    exact restoredAtom_id s a

theorem c5_restore_subset_witness :
    restore [(1, (7, 7, 7)), (3, (9, 9, 9))] [⟨1, (0, 0, 0)⟩, ⟨2, (5, 5, 5)⟩]
      = [⟨1, (0, 0, 0)⟩, ⟨2, (5, 5, 5)⟩].map
          (restoredAtom [(1, (7, 7, 7)), (3, (9, 9, 9))])
      ∧ (restore [(1, (7, 7, 7)), (3, (9, 9, 9))] [⟨1, (0, 0, 0)⟩, ⟨2, (5, 5, 5)⟩]).map Atom.id
      = [⟨1, (0, 0, 0)⟩, ⟨2, (5, 5, 5)⟩].map Atom.id := by
  have h := c5_restore_subset [(1, (7, 7, 7)), (3, (9, 9, 9))]
    [⟨1, (0, 0, 0)⟩, ⟨2, (5, 5, 5)⟩] (by decide)
  exact ⟨h.1, h.2.2.2⟩

/-- Modelled from the spec: TaskConfiguration (section 3), immutable for the
lifetime of one task.  These are the int parameters of the ForceFieldThread
constructor declared in forcefieldextension.h. -/
structure TaskConfig where
  forceFieldIdentifier : Nat
  maxSteps : Nat
  algorithmVariant : Nat
  gradientMode : Nat
  convergenceThreshold : Int
  taskKind : Nat
deriving DecidableEq, Repr

/-- Modelled from the spec: ProgressReport (section 3), produced by the task
and consumed by whichever observer is attached. -/
structure ProgressReport where
  stepsCompleted : Nat
  converged : Bool
deriving DecidableEq, Repr

/-- The external force-field capability of spec section 6: whether setup
succeeds, the coordinate update performed by one minimization step, and the
convergence check after a given number of steps.  The capability is external
to the audited code, so it is a parameter of the model. -/
structure FFCapability where
  setupOk : Bool
  stepFn : Nat → Molecule → Molecule
  convergedAfter : Nat → Bool

/-- The outcome of the minimization loop: final step count, final molecule,
the intermediate progress reports in publication order, and whether the loop
exited through the convergence check. -/
structure LoopOut where
  steps : Nat
  mol : Molecule
  reps : List ProgressReport
  conv : Bool

/-- Modelled from the spec: the iteration of ForceFieldThread::run
(section 4.1) — loop up to maxSteps times; each iteration performs one
optimization step, writes the updated coordinates into the live molecule,
increments stepsCompleted, publishes a ProgressReport, then checks the
cooperative stop flag and the convergence threshold and breaks on either.
The stop flag is a function of the step count: it records at which iteration
boundaries a concurrently issued stop request is observed. -/
def optLoop (ff : FFCapability) (stopFlag : Nat → Bool) :
    Nat → Nat → Molecule → LoopOut
  | 0, k, mol => ⟨k, mol, [], false⟩
  | fuel + 1, k, mol =>
    let mol1 := ff.stepFn k mol
    let k1 := k + 1
    if stopFlag k1 then ⟨k1, mol1, [⟨k1, false⟩], false⟩
    else if ff.convergedAfter k1 then ⟨k1, mol1, [⟨k1, false⟩], true⟩
    else
      let out := optLoop ff stopFlag fuel k1 mol1
      ⟨out.steps, out.mol, ⟨k1, false⟩ :: out.reps, out.conv⟩

/-- The complete record of one task run: final molecule, final step count,
every report published on the ProgressChannel in order, and the final
report. -/
structure RunResult where
  mol : Molecule
  stepsCompleted : Nat
  reports : List ProgressReport
  finalReport : ProgressReport
deriving DecidableEq, Repr

/-- Modelled from the spec: ForceFieldThread::run (sections 4.1 and 7).
If the force-field capability fails to set up, the task terminates
immediately with zero steps and a non-converged final report, without any
coordinate write; otherwise it runs the minimization loop and on loop exit
publishes a final report with the converged flag set appropriately. -/
def taskRun (ff : FFCapability) (stopFlag : Nat → Bool) (cfg : TaskConfig)
    (mol : Molecule) : RunResult :=
  if ff.setupOk then
    let out := optLoop ff stopFlag cfg.maxSteps 0 mol
    ⟨out.mol, out.steps, out.reps ++ [⟨out.steps, out.conv⟩], ⟨out.steps, out.conv⟩⟩
  else
    ⟨mol, 0, [⟨0, false⟩], ⟨0, false⟩⟩

theorem optLoop_steps_le (ff : FFCapability) (sf : Nat → Bool) :
    ∀ fuel k mol, k ≤ (optLoop ff sf fuel k mol).steps
      ∧ (optLoop ff sf fuel k mol).steps ≤ k + fuel := by
  intro fuel
  induction fuel with
  | zero => intro k mol; exact ⟨le_refl k, by simp [optLoop]⟩
  | succ n ih =>
    intro k mol
    simp only [optLoop]
    split
    · simp
    · split
      · simp
      · have h := ih (k + 1) (ff.stepFn k mol)
        dsimp only
        exact ⟨le_trans (Nat.le_succ k) h.1, by omega⟩

theorem optLoop_reps_spec (ff : FFCapability) (sf : Nat → Bool) :
    ∀ fuel k mol,
      (∀ r ∈ (optLoop ff sf fuel k mol).reps,
          k + 1 ≤ r.stepsCompleted
            ∧ r.stepsCompleted ≤ (optLoop ff sf fuel k mol).steps)
        ∧ (optLoop ff sf fuel k mol).reps.Pairwise
            (fun a b => a.stepsCompleted ≤ b.stepsCompleted) := by
  intro fuel
  induction fuel with
  | zero => intro k mol; simp [optLoop]
  | succ n ih =>
    intro k mol
    simp only [optLoop]
    split
    · simp
    · split
      · simp
      · have hb := optLoop_steps_le ff sf n (k + 1) (ff.stepFn k mol)
        have h := ih (k + 1) (ff.stepFn k mol)
        dsimp only
        constructor
        · intro r hr
          simp only [List.mem_cons] at hr
          rcases hr with hr | hr
          · subst hr
            exact ⟨le_refl _, hb.1⟩
          · have := h.1 r hr
            omega
        · refine List.Pairwise.cons ?_ h.2
          intro r hr
          have := h.1 r hr
          dsimp only
          omega

theorem getLast_concat_eq {α : Type} (l : List α) (a : α) :
    (l ++ [a]).getLast? = some a := by
  rw [List.getLast?_append_cons]
  rfl

/-- C3: when the force-field capability fails to initialize, the task
terminates with zero steps completed, a final (and only) report with the
converged flag false, and the molecule exactly as it was before the task
started — no coordinate write happens. -/
theorem c3_setup_failure (ff : FFCapability) (sf : Nat → Bool)
    (cfg : TaskConfig) (m : Molecule) (h : ff.setupOk = false) :
    taskRun ff sf cfg m = ⟨m, 0, [⟨0, false⟩], ⟨0, false⟩⟩ := by
  simp [taskRun, h]

theorem c3_setup_failure_witness :
    (FFCapability.mk false (fun _ mol => mol.map (fun a => ⟨a.id, (9, 9, 9)⟩))
        (fun _ => false)).setupOk = false
      ∧ taskRun
          (FFCapability.mk false (fun _ mol => mol.map (fun a => ⟨a.id, (9, 9, 9)⟩))
            (fun _ => false))
          (fun _ => false) ⟨0, 10, 0, 0, 0, 0⟩ [⟨1, (0, 0, 0)⟩]
        = ⟨[⟨1, (0, 0, 0)⟩], 0, [⟨0, false⟩], ⟨0, false⟩⟩ :=
  ⟨rfl, c3_setup_failure _ (fun _ => false) ⟨0, 10, 0, 0, 0, 0⟩ [⟨1, (0, 0, 0)⟩] rfl⟩

/-- C6: every sequence of reports a consumer can observe (any sublist of the
published reports, since dropping intermediate reports is permitted) carries
non-decreasing stepsCompleted values, every published stepsCompleted value is
bounded by maxSteps, and the final report is the last one delivered. -/
theorem c6_reports_monotone (ff : FFCapability) (sf : Nat → Bool)
    (cfg : TaskConfig) (m : Molecule) (obs : List ProgressReport)
    (hobs : obs.Sublist (taskRun ff sf cfg m).reports) :
    obs.Pairwise (fun a b => a.stepsCompleted ≤ b.stepsCompleted)
      ∧ (∀ r ∈ (taskRun ff sf cfg m).reports, r.stepsCompleted ≤ cfg.maxSteps)
      ∧ (taskRun ff sf cfg m).reports.getLast?
          = some (taskRun ff sf cfg m).finalReport := by
  have hall : (taskRun ff sf cfg m).reports.Pairwise
      (fun a b => a.stepsCompleted ≤ b.stepsCompleted)
      ∧ (∀ r ∈ (taskRun ff sf cfg m).reports, r.stepsCompleted ≤ cfg.maxSteps)
      ∧ (taskRun ff sf cfg m).reports.getLast?
          = some (taskRun ff sf cfg m).finalReport := by
    unfold taskRun
    split
    · have hb := optLoop_steps_le ff sf cfg.maxSteps 0 m
      have hr := optLoop_reps_spec ff sf cfg.maxSteps 0 m
      refine ⟨?_, ?_, ?_⟩
      · rw [List.pairwise_append]
        refine ⟨hr.2, List.pairwise_singleton _ _, ?_⟩
        intro a ha b hb'
        simp only [List.mem_singleton] at hb'
        subst hb'
        exact (hr.1 a ha).2
      · intro r hrm
        simp only [List.mem_append, List.mem_singleton] at hrm
        rcases hrm with hrm | hrm
        · have := (hr.1 r hrm).2
          omega
        · subst hrm
          simpa using hb.2
      · exact getLast_concat_eq _ _
    · refine ⟨by simp, ?_, rfl⟩
      intro r hrm
      simp only [List.mem_singleton] at hrm
      subst hrm
      simp
  exact ⟨hall.1.sublist hobs, hall.2⟩

theorem c6_reports_monotone_witness :
    ((taskRun (FFCapability.mk true (fun _ mol => mol) (fun _ => false))
        (fun _ => false) ⟨0, 2, 0, 0, 0, 0⟩ []).reports).Pairwise
      (fun a b => a.stepsCompleted ≤ b.stepsCompleted)
      ∧ (taskRun (FFCapability.mk true (fun _ mol => mol) (fun _ => false))
          (fun _ => false) ⟨0, 2, 0, 0, 0, 0⟩ []).reports.getLast?
        = some (taskRun (FFCapability.mk true (fun _ mol => mol) (fun _ => false))
            (fun _ => false) ⟨0, 2, 0, 0, 0, 0⟩ []).finalReport := by
  have h := c6_reports_monotone
    (FFCapability.mk true (fun _ mol => mol) (fun _ => false))
    (fun _ => false) ⟨0, 2, 0, 0, 0, 0⟩ [] _ (List.Sublist.refl _)
  exact ⟨h.1, h.2.2⟩

/-- Modelled from the spec: the OptimizationCommand lifecycle states of
section 4.2 — Idle, Running, Finished/Applied, Finished/Reverted,
Detached. -/
inductive CmdState where
  | idle
  | running
  | finApplied
  | finReverted
  | detached
deriving DecidableEq, Repr

/-- Modelled from the spec: the joint state of one OptimizationCommand, its
task and the live molecule (sections 4.1, 4.2, 5).  The task side carries the
mutex-guarded stop flag and step counter of the ForceFieldThread declaration;
cmdAlive records whether the history stack has destroyed the command. -/
structure Sys where
  mol : Molecule
  preSnapshot : Snapshot
  postSnapshot : Option Snapshot
  cmd : CmdState
  cmdAlive : Bool
  taskSteps : Nat
  stopRequested : Bool
  taskExited : Bool
deriving DecidableEq, Repr

/-- The atomic actions of the two threads: the controlling thread's command
operations and the worker's loop iterations.  One taskIter is one whole loop
iteration; section 5 states the stop flag is checked once per iteration
boundary and never preempts mid-step, so iterations interleave atomically. -/
inductive Event where
  | startCmd
  | taskIter
  | taskSetupFail
  | undoCmd
  | redoCmd
  | requestStop
  | destroyCmd
deriving DecidableEq, Repr

/-- The initial state of a freshly constructed command: Idle, with the
pre-start snapshot captured from the live molecule (section 4.2). -/
def mkSys (mol : Molecule) : Sys :=
  ⟨mol, capture mol, none, .idle, true, 0, false, false⟩

/-- Modelled from the spec: one atomic transition of the command/task system
(sections 4.1, 4.2 and 5).  start spawns the task; a task iteration performs
one step, writes the updated coordinates into the live molecule, increments
the counter, then checks the stop flag and convergence and on either (or on
reaching maxSteps) exits, delivering the final report — which, when the
command is still attached, moves it to Finished/Applied with the post-run
geometry cached; undo on a running command synchronously restores the
pre-start snapshot, requests a stop and detaches; undo/redo on a finished
command restore the pre/post snapshot; Detached is terminal, so command
operations on a detached command do nothing; destroy only drops the command
object. -/
def step (ff : FFCapability) (maxSteps : Nat) (s : Sys) : Event → Option Sys
  | .startCmd =>
    if s.cmd = .idle ∧ s.cmdAlive then some { s with cmd := .running } else none
  | .taskIter =>
    if (s.cmd = .running ∨ s.cmd = .detached) ∧ s.taskExited = false
        ∧ ff.setupOk = true ∧ s.taskSteps < maxSteps then
      let mol1 := ff.stepFn s.taskSteps s.mol
      let k1 := s.taskSteps + 1
      if s.stopRequested || ff.convergedAfter k1 || decide (maxSteps ≤ k1) then
        if s.cmd = .running then
          some { s with mol := mol1, taskSteps := k1, taskExited := true,
                        cmd := .finApplied, postSnapshot := some (capture mol1) }
        else
          some { s with mol := mol1, taskSteps := k1, taskExited := true }
      else
        some { s with mol := mol1, taskSteps := k1 }
    else none
  | .taskSetupFail =>
    if (s.cmd = .running ∨ s.cmd = .detached) ∧ s.taskExited = false
        ∧ ff.setupOk = false then
      if s.cmd = .running then
        some { s with taskExited := true, cmd := .finApplied,
                      postSnapshot := some (capture s.mol) }
      else
        some { s with taskExited := true }
    else none
  | .undoCmd =>
    match s.cmd with
    | .running =>
      some { s with mol := restore s.preSnapshot s.mol,
                    stopRequested := true, cmd := .detached }
    | .finApplied =>
      some { s with mol := restore s.preSnapshot s.mol, cmd := .finReverted }
    | _ => some s
  | .redoCmd =>
    match s.cmd with
    | .finReverted =>
      match s.postSnapshot with
      | some snap => some { s with mol := restore snap s.mol, cmd := .finApplied }
      | none => some { s with cmd := .finApplied }
    | _ => some s
  | .requestStop => some { s with stopRequested := true }
  | .destroyCmd => if s.cmdAlive then some { s with cmdAlive := false } else none

/-- Run a sequence of atomic actions from a state; none when some action in
the sequence is not enabled. -/
def runEvents (ff : FFCapability) (maxSteps : Nat) : Sys → List Event → Option Sys
  | s, [] => some s
  | s, e :: es =>
    match step ff maxSteps s e with
    | some s1 => runEvents ff maxSteps s1 es
    | none => none

/-- The number of task iterations in an action sequence. -/
def iterCount : List Event → Nat
  | [] => 0
  | .taskIter :: es => iterCount es + 1
  | _ :: es => iterCount es

theorem step_detached (ff : FFCapability) (ms : Nat) (s s1 : Sys) (e : Event)
    (hc : s.cmd = .detached) (hstop : s.stopRequested = true)
    (h : step ff ms s e = some s1) :
    s1.cmd = .detached ∧ s1.stopRequested = true
      ∧ s1.preSnapshot = s.preSnapshot
      ∧ (e = .taskIter → s.taskExited = false ∧ s1.taskExited = true)
      ∧ (e ≠ .taskIter → s1.mol = s.mol)
      ∧ (s.taskExited = true → s1.taskExited = true) := by
  cases e with
  | startCmd =>
    rw [step, if_neg (by simp [hc])] at h
    exact absurd h (by simp)
  | taskIter =>
    rw [step] at h
    by_cases hen : (s.cmd = .running ∨ s.cmd = .detached) ∧ s.taskExited = false
        ∧ ff.setupOk = true ∧ s.taskSteps < ms
    · rw [if_pos hen] at h
      have hnotrun : ¬ (s.cmd = CmdState.running) := by simp [hc]
      simp only [hstop, Bool.true_or, if_true, if_neg hnotrun,
        Option.some.injEq] at h
      subst h
      simp [hc, hstop, hen.2.1]
    · rw [if_neg hen] at h
      exact absurd h (by simp)
  | taskSetupFail =>
    rw [step] at h
    by_cases hen : (s.cmd = .running ∨ s.cmd = .detached) ∧ s.taskExited = false
        ∧ ff.setupOk = false
    · rw [if_pos hen] at h
      rw [if_neg (by simp [hc])] at h
      cases h
      simp [hc, hstop]
    · rw [if_neg hen] at h
      exact absurd h (by simp)
  | undoCmd =>
    rw [step, hc] at h
    cases h
    simp [hc, hstop]
  | redoCmd =>
    rw [step, hc] at h
    cases h
    simp [hc, hstop]
  | requestStop =>
    rw [step] at h
    cases h
    simp [hc]
  | destroyCmd =>
    rw [step] at h
    by_cases hal : s.cmdAlive = true
    · rw [if_pos hal] at h
      cases h
      simp [hc, hstop]
    · rw [if_neg hal] at h
      exact absurd h (by simp)

theorem runEvents_detached (ff : FFCapability) (ms : Nat) :
    ∀ (es : List Event) (s s2 : Sys), s.cmd = .detached →
      s.stopRequested = true → runEvents ff ms s es = some s2 →
      (iterCount es = 0 → s2.mol = s.mol)
        ∧ iterCount es ≤ (if s.taskExited then 0 else 1) := by
  intro es
  induction es with
  | nil =>
    intro s s2 _ _ h
    cases h
    exact ⟨fun _ => rfl, by simp [iterCount]⟩
  | cons e es ih =>
    intro s s2 hc hstop h
    rw [runEvents] at h
    rcases h1 : step ff ms s e with _ | s1
    · rw [h1] at h
      exact absurd h (by simp)
    · rw [h1] at h
      have hd := step_detached ff ms s s1 e hc hstop h1
      have htail := ih s1 s2 hd.1 hd.2.1 h
      by_cases he : e = .taskIter
      · subst he
        have hiter := hd.2.2.2.1 rfl
        have hgoal : iterCount (Event.taskIter :: es) = iterCount es + 1 := rfl
        have htail2 : iterCount es ≤ 0 := by
          have h2 := htail.2
          rw [if_pos hiter.2] at h2
          exact h2
        constructor
        · intro h0
          rw [hgoal] at h0
          exact absurd h0 (Nat.succ_ne_zero _)
        · rw [hgoal]
          have hnex : ¬ (s.taskExited = true) := by rw [hiter.1]; simp
          rw [if_neg hnex]
          omega
      · have hmol : s1.mol = s.mol := hd.2.2.2.2.1 he
        have hcount : iterCount (e :: es) = iterCount es := by
          cases e <;> simp [iterCount] at he ⊢
        constructor
        · intro h0
          rw [hcount] at h0
          rw [htail.1 h0, hmol]
        · rw [hcount]
          have hb := htail.2
          by_cases hex : s.taskExited = true
          · have h1ex : s1.taskExited = true := hd.2.2.2.2.2 hex
            rw [if_pos h1ex] at hb
            rw [if_pos hex]
            exact hb
          · rw [if_neg hex]
            have hle : (if s1.taskExited = true then 0 else 1) ≤ 1 := by
              split
              · omega
              · omega
            omega

/-- Modelled from the spec: the merge-relevant data of a ForceFieldCommand —
its taskKind, the identity of its target molecule, its pre-start snapshot and
whether it has been detached (section 4.2; the m_task, m_molecule,
m_moleculeCopy and m_detached members declared in forcefieldextension.h). -/
structure FFCmd where
  taskKind : Nat
  molId : Nat
  preSnapshot : Snapshot
  detached : Bool
deriving DecidableEq, Repr

/-- The command produced by a successful merge: the later command carrying the
earlier command's pre-snapshot as its before state. -/
def mergedCmd (earlier later : FFCmd) : FFCmd :=
  { later with preSnapshot := earlier.preSnapshot }

/-- Modelled from the spec: the merge policy of ForceFieldCommand::mergeWith
(section 4.2) — two adjacent commands of the same taskKind on the same
molecule may merge, the merged command's before state becoming the earlier
one's pre-snapshot; merge is refused across different task kinds, different
target molecules, or once a command has been detached. -/
def mergeCommands (earlier later : FFCmd) : Option FFCmd :=
  if earlier.taskKind = later.taskKind ∧ earlier.molId = later.molId
      ∧ earlier.detached = false ∧ later.detached = false then
    some (mergedCmd earlier later)
  else none

/-- Modelled from the spec: the synchronous molecule effect of undo on a
finished command — restore the command's pre-snapshot (section 4.2). -/
def undoRestore (c : FFCmd) (m : Molecule) : Molecule :=
  restore c.preSnapshot m

/-- A concrete force-field capability whose every step moves each atom to
position (1, 1, 1), used for concrete evaluations of the model. -/
def ffMove : FFCapability :=
  ⟨true, fun _ mol => mol.map (fun a => ⟨a.id, (1, 1, 1)⟩), fun _ => false⟩

/-- A one-atom system whose command is Running with zero iterations done. -/
def sysRunning : Sys :=
  ⟨[⟨1, (0, 0, 0)⟩], [(1, (0, 0, 0))], none, .running, true, 0, false, false⟩

/-- The system after undoing sysRunning: snapshot restored, stop requested,
command detached. -/
def sysDetached : Sys :=
  ⟨[⟨1, (0, 0, 0)⟩], [(1, (0, 0, 0))], none, .detached, true, 0, true, false⟩

/-- The system after the detached task completes one more iteration from
sysDetached: the iteration's coordinate write lands after the restore. -/
def sysOverwritten : Sys :=
  ⟨[⟨1, (1, 1, 1)⟩], [(1, (0, 0, 0))], none, .detached, true, 1, true, true⟩

/-- C1 counterexample: a command started on a one-atom molecule is undone
while Running; the restore succeeds, but the detached task then completes one
further iteration whose coordinate write overwrites the restored snapshot, so
the molecule's coordinates do not equal the pre-start snapshot even though
the undo itself restored them — the claim's "regardless of how many further
iterations the detached task completes afterward" fails at iteration
count one. -/
theorem c1_counterexample :
    step ffMove 5 (mkSys [⟨1, (0, 0, 0)⟩]) .startCmd = some sysRunning
      ∧ sysRunning.cmd = .running
      ∧ step ffMove 5 sysRunning .undoCmd = some sysDetached
      ∧ sysDetached.mol = restore sysRunning.preSnapshot sysRunning.mol
      ∧ runEvents ffMove 5 sysDetached [.taskIter] = some sysOverwritten
      ∧ sysOverwritten.mol ≠ restore sysRunning.preSnapshot sysRunning.mol := by
  refine ⟨by decide, rfl, by decide, by decide, by decide, by decide⟩

theorem ite_le_one (b : Bool) : (if b = true then 0 else 1) ≤ 1 := by
  cases b <;> simp

/-- C1 (amended): undoing a Running command synchronously restores the
molecule's coordinates to the pre-start snapshot, requests a stop and
detaches; afterwards the detached task can complete at most one further
iteration, and the coordinates still equal the snapshot whenever it completes
none — a further iteration may overwrite them (spec section 5's bounded
inconsistency window). -/
theorem c1_undo_restore_amended (ff : FFCapability) (ms : Nat) (s s1 : Sys)
    (hc : s.cmd = .running) (h : step ff ms s .undoCmd = some s1) :
    (s1.mol = restore s.preSnapshot s.mol ∧ s1.cmd = .detached
        ∧ s1.stopRequested = true)
      ∧ ∀ es s2, runEvents ff ms s1 es = some s2 →
          (iterCount es = 0 → s2.mol = restore s.preSnapshot s.mol)
            ∧ iterCount es ≤ 1 := by
  have h1 : step ff ms s .undoCmd
      = some { s with mol := restore s.preSnapshot s.mol,
                      stopRequested := true, cmd := .detached } := by
    rw [step, hc]
  rw [h1, Option.some.injEq] at h
  subst h
  refine ⟨⟨rfl, rfl, rfl⟩, ?_⟩
  intro es s2 hrun
  have hres := runEvents_detached ff ms es _ s2 rfl rfl hrun
  exact ⟨hres.1, le_trans hres.2 (ite_le_one _)⟩

theorem c1_undo_restore_amended_witness :
    sysDetached.mol = restore sysRunning.preSnapshot sysRunning.mol
      ∧ iterCount [] ≤ 1 := by
  have h := c1_undo_restore_amended ffMove 5 sysRunning sysDetached rfl (by decide)
  exact ⟨h.1.1, (h.2 [] sysDetached rfl).2⟩

/-- C2: once a command is Detached, its operations never touch the molecule
or the task again — undo and redo leave the whole system state unchanged,
destruction only drops the command object while molecule and task state are
untouched (the detached task cleans up alone), and a merge attempt involving
a detached command is refused without effect. -/
theorem c2_detached_never_touches (ff : FFCapability) (ms : Nat) (s : Sys)
    (hc : s.cmd = .detached) :
    step ff ms s .undoCmd = some s
      ∧ step ff ms s .redoCmd = some s
      ∧ (∀ s1, step ff ms s .destroyCmd = some s1 →
          s1.mol = s.mol ∧ s1.taskSteps = s.taskSteps
            ∧ s1.stopRequested = s.stopRequested
            ∧ s1.taskExited = s.taskExited ∧ s1.cmd = .detached)
      ∧ ∀ c other : FFCmd, c.detached = true →
          mergeCommands c other = none ∧ mergeCommands other c = none := by
  refine ⟨by rw [step, hc], by rw [step, hc], ?_, ?_⟩
  · intro s1 h
    rw [step] at h
    by_cases hal : s.cmdAlive = true
    · rw [if_pos hal, Option.some.injEq] at h
      subst h
      simp [hc]
    · rw [if_neg hal] at h
      exact absurd h (by simp)
  · intro c other hdet
    constructor
    · unfold mergeCommands
      rw [if_neg]
      rintro ⟨_, _, h1, _⟩
      simp [hdet] at h1
    · unfold mergeCommands
      rw [if_neg]
      rintro ⟨_, _, _, h2⟩
      simp [hdet] at h2

theorem c2_detached_never_touches_witness :
    step ffMove 5 sysDetached .undoCmd = some sysDetached
      ∧ mergeCommands ⟨0, 0, [], true⟩ ⟨0, 0, [], false⟩ = none := by
  have h := c2_detached_never_touches ffMove 5 sysDetached rfl
  exact ⟨h.1, (h.2.2.2 ⟨0, 0, [], true⟩ ⟨0, 0, [], false⟩ rfl).1⟩

/-- An earlier command of kind 0 on molecule 0 that has been detached. -/
def cmdDetachedA : FFCmd := ⟨0, 0, [(1, (0, 0, 0))], true⟩

/-- A later command of the same kind on the same molecule, not detached. -/
def cmdFreshB : FFCmd := ⟨0, 0, [(1, (5, 5, 5))], false⟩

/-- C7 counterexample: two adjacent commands of the same taskKind targeting
the same molecule where one has been detached — the merge attempt fails in
both orders, so merging same-kind same-molecule commands does not always
succeed as the claim states. -/
theorem c7_counterexample :
    cmdDetachedA.taskKind = cmdFreshB.taskKind
      ∧ cmdDetachedA.molId = cmdFreshB.molId
      ∧ mergeCommands cmdDetachedA cmdFreshB = none
      ∧ mergeCommands cmdFreshB cmdDetachedA = none := by decide

/-- C7 (amended): for two adjacent commands of the same taskKind targeting
the same molecule, neither of which has been detached, merging succeeds and
yields a single command whose undo restores the pre-state of the earlier
(first) of the two. -/
theorem c7_merge_restores_first (c1 c2 : FFCmd) (m : Molecule)
    (hk : c1.taskKind = c2.taskKind) (hm : c1.molId = c2.molId)
    (h1 : c1.detached = false) (h2 : c2.detached = false) :
    mergeCommands c1 c2 = some (mergedCmd c1 c2)
      ∧ undoRestore (mergedCmd c1 c2) m = undoRestore c1 m := by
  constructor
  · unfold mergeCommands
    rw [if_pos ⟨hk, hm, h1, h2⟩]
  · rfl

/-- The first of two mergeable commands in a concrete merge scenario. -/
def cmdFirst : FFCmd := ⟨1, 2, [(1, (0, 0, 0))], false⟩

/-- The second of two mergeable commands in a concrete merge scenario. -/
def cmdSecond : FFCmd := ⟨1, 2, [(1, (3, 3, 3))], false⟩

theorem c7_merge_restores_first_witness :
    mergeCommands cmdFirst cmdSecond = some (mergedCmd cmdFirst cmdSecond)
      ∧ undoRestore (mergedCmd cmdFirst cmdSecond) [⟨1, (9, 9, 9)⟩]
        = undoRestore cmdFirst [⟨1, (9, 9, 9)⟩] :=
  c7_merge_restores_first cmdFirst cmdSecond [⟨1, (9, 9, 9)⟩] rfl rfl rfl rfl

/-- C8: a merge attempt between commands that differ in taskKind, differ in
target molecule, or of which one has been detached returns "not merged", and
each command remains independently undoable — its undo still restores its own
pre-snapshot. -/
theorem c8_merge_refused (c1 c2 : FFCmd) (m : Molecule)
    (h : c1.taskKind ≠ c2.taskKind ∨ c1.molId ≠ c2.molId
        ∨ c1.detached = true ∨ c2.detached = true) :
    mergeCommands c1 c2 = none
      ∧ undoRestore c1 m = restore c1.preSnapshot m
      ∧ undoRestore c2 m = restore c2.preSnapshot m := by
  refine ⟨?_, rfl, rfl⟩
  unfold mergeCommands
  rw [if_neg]
  rintro ⟨hk, hm, h1, h2⟩
  rcases h with h | h | h | h
  · exact h hk
  · exact h hm
  · simp [h] at h1
  · simp [h] at h2

theorem c8_merge_refused_witness :
    mergeCommands ⟨0, 0, [], false⟩ ⟨1, 0, [], false⟩ = none := by
  have h := c8_merge_refused ⟨0, 0, [], false⟩ ⟨1, 0, [], false⟩ []
    (Or.inl (by decide))
  exact h.1

/-- A bond as the picking code sees it: its index in the molecule
(OpenBabel bond indices are 0-based). -/
structure GlBond where
  idx : Nat
deriving DecidableEq, Repr

/-- From bsdyengine.cpp, BSDYEngine::render(const Bond*) lines 136-138: the
GL pick name pushed for a bond is GetIdx() + 1. -/
def bondGlName (b : GlBond) : Nat := b.idx + 1

/-- Molecule::GetBond(i): the bond whose index equals i, if any. -/
def getBond (bonds : List GlBond) (i : Nat) : Option GlBond :=
  bonds.find? (fun b => b.idx == i)

/-- From selectrotatetool.cpp, SelectRotateTool::mouseRelease line 123
(single-click path): a bond hit is resolved by GetBond(hit.name() - 1). -/
def clickResolveBond (bonds : List GlBond) (name : Nat) : Option GlBond :=
  getBond bonds (name - 1)

/-- From selectrotatetool.cpp, SelectRotateTool::mouseRelease line 201
(drag-selection-box path): a bond hit is resolved by GetBond(hit.name()). -/
def dragResolveBond (bonds : List GlBond) (name : Nat) : Option GlBond :=
  getBond bonds name

/-- C9: on a molecule with bonds of indices 0 and 1, bond 0 is rendered under
GL pick name 1; the single-click path resolves that name back to bond 0
(round-trip identity), but the drag-selection-box path resolves the very same
hit to bond 1 — and to no bond at all when bond 0 is the last bond — so the
two hit-handling paths do not both resolve a bond hit back to the bond that
was rendered. -/
theorem c9_drag_path_off_by_one :
    clickResolveBond [⟨0⟩, ⟨1⟩] (bondGlName ⟨0⟩) = some ⟨0⟩
      ∧ dragResolveBond [⟨0⟩, ⟨1⟩] (bondGlName ⟨0⟩) = some ⟨1⟩
      ∧ (⟨1⟩ : GlBond) ≠ ⟨0⟩
      ∧ dragResolveBond [⟨0⟩] (bondGlName ⟨0⟩) = none := by decide

/-- A 4-vector of fitting-plane coefficients, standing in for the
Eigen::Vector4d of the source. -/
abbrev Plane : Type := Int × Int × Int × Int

/-- Componentwise difference of positions. -/
def psub (p q : Pos) : Pos := (p.1 - q.1, p.2.1 - q.2.1, p.2.2 - q.2.2)

/-- OBMol::Center() (external to the audited sources): translate every atom
by the molecule's centroid, taken as a parameter. -/
def obCenter (centroid : Molecule → Pos) (m : Molecule) : Molecule :=
  m.map (fun a => ⟨a.id, psub a.pos (centroid m)⟩)

/-- From primitives.cpp, Molecule::centerAndFitInXYPlane lines 145-183:
Center() the molecule, count its atoms and return if there are none;
otherwise gather the atom positions, compute the fitting hyperplane
(Eigen::computeFittingHyperplane, external — a parameter here), build the
rotation orienting the molecule in the XY plane from the plane coefficients
(lines 163-171, floating-point linear algebra folded into the applyRotation
parameter) and apply it to every atom. -/
def centerAndFitInXYPlane (centroid : Molecule → Pos)
    (fitHyperplane : Nat → List Pos → Plane)
    (applyRotation : Plane → Pos → Pos) (m : Molecule) : Molecule :=
  let m1 := obCenter centroid m
  let numAtoms := m1.length
  if numAtoms = 0 then m1
  else
    let planeCoeffs := fitHyperplane numAtoms (m1.map (fun a => a.pos))
    m1.map (fun a => ⟨a.id, applyRotation planeCoeffs a.pos⟩)

/-- C10: on a molecule with zero atoms, centerAndFitInXYPlane returns right
after the centering step: the result is exactly the centered (empty)
molecule, no rotation is applied to any atom, and the result does not depend
on the plane-fitting or rotation computations at all — the plane-fitting
branch is unreachable, so no atom position is read or written past
centering. -/
theorem c10_empty_molecule_no_fit (centroid : Molecule → Pos)
    (fit fit2 : Nat → List Pos → Plane) (rot rot2 : Plane → Pos → Pos)
    (m : Molecule) (h : m.length = 0) :
    centerAndFitInXYPlane centroid fit rot m = obCenter centroid m
      ∧ centerAndFitInXYPlane centroid fit rot m = []
      ∧ centerAndFitInXYPlane centroid fit rot m
        = centerAndFitInXYPlane centroid fit2 rot2 m := by
  have hm : m = [] := List.length_eq_zero.mp h
  subst hm
  exact ⟨rfl, rfl, rfl⟩

theorem c10_empty_molecule_no_fit_witness :
    centerAndFitInXYPlane (fun _ => (0, 0, 0)) (fun _ _ => (0, 0, 1, 0))
        (fun _ p => p) []
      = obCenter (fun _ => (0, 0, 0)) []
      ∧ centerAndFitInXYPlane (fun _ => (0, 0, 0)) (fun _ _ => (0, 0, 1, 0))
          (fun _ p => p) [] = [] := by
  have h := c10_empty_molecule_no_fit (fun _ => (0, 0, 0))
    (fun _ _ => (0, 0, 1, 0)) (fun _ _ => (0, 0, 1, 0))
    (fun _ p => p) (fun _ p => p) [] rfl
  exact ⟨h.1, h.2.1⟩

end Avogadro
